import Mathlib

/-!
Verification of `multimxrun.py` (McXtrace multiprocess run utility).

This file gives a shallow embedding of the process-pool scheduler, the
progress-output parser, the per-tick summary aggregation and the final
cleanup pass of `src/multimxrun.py`, together with theorems settling the
specification claims about them.

Modelling conventions:
* Python floats are modelled as exact rationals (`ℚ`); all arithmetic the
  program performs on them (unit scaling, averaging) is exact decimal
  arithmetic on the inputs of interest.
* The two regular expressions in `Program.process_output` are modelled by
  deterministic character-list parsers with the same acceptance language and
  group captures (the `\d`, `\w`, `\s` classes are modelled by their ASCII
  parts, which is what the wrapped program's output uses).
* `subprocess.Popen` / `poll()` are modelled by oracles: a per-job boolean
  saying whether the spawn succeeds, and a per-tick, per-job `Option Int`
  giving `poll()`'s result (`none` = still running, `some c` = exited with
  return code `c`).
-/

namespace Multimxrun

/-! ### Character classes (ASCII parts of Python's `\d`, `\w`, `\s`) -/

/-- ASCII decimal digit, the `\d` class of the source's regexes. -/
def isDigitChar (c : Char) : Bool := '0' ≤ c && c ≤ '9'

/-- ASCII word character, the `\w` class of the source's regexes. -/
def isWordChar (c : Char) : Bool := c.isAlpha || isDigitChar c || c = '_'

/-- ASCII whitespace, the `\s` class of the source's regexes. -/
def isSpaceChar (c : Char) : Bool :=
  c = ' ' || c = '\t' || c = '\n' || c = '\r' || c = '\x0b' || c = '\x0c'

/-- Numeric value of a digit string, as produced by Python's `int()`. -/
def natOfDigits (cs : List Char) : Nat :=
  cs.foldl (fun a c => 10 * a + (c.toNat - 48)) 0

/-- Value of a decimal literal `\d+\.?\d*`, as produced by Python's `float()`,
modelled exactly in `ℚ`. -/
def ratOfNumStr (cs : List Char) : ℚ :=
  match cs.dropWhile isDigitChar with
  | '.' :: fp =>
    (natOfDigits (cs.takeWhile isDigitChar) : ℚ) +
      (natOfDigits (fp.takeWhile isDigitChar) : ℚ) / (10 : ℚ) ^ (fp.takeWhile isDigitChar).length
  | _ => (natOfDigits (cs.takeWhile isDigitChar) : ℚ)

/-- Strip an expected literal from the head of the input (the literal parts of
the source's regexes); `none` when the input does not start with it. -/
def dropLit : List Char → List Char → Option (List Char)
  | [], cs => some cs
  | _ :: _, [] => none
  | p :: ps, c :: cs => if c = p then dropLit ps cs else none

/-! ### The two regexes of `Program.process_output` (multimxrun.py:567, 575)

Regex 1 is `^Trace ETA (?P<time>\d+\.?\d*) \[(?P<unit>\w+)\] %.* (?P<percent>\d+)\s*$`
(applied with `re.match`).  Its tail `.* (\d+)\s*$` matches exactly when the
text after `] %` splits as `u ++ ' ' :: d ++ w` with `u` newline-free (`.`
does not cross newlines), `d` a nonempty digit string and `w` all whitespace
(`$` matches at the end or before a final newline, and `\s*` absorbs the
rest); greediness forces `w` to be the maximal whitespace suffix and `d` the
maximal digit run before it, so the match is deterministic. -/

/-- The tail `.* (?P<percent>\d+)\s*$` of regex 1: returns the percent group. -/
def matchTail (cs : List Char) : Option (List Char) :=
  if ((cs.reverse.dropWhile isSpaceChar).takeWhile isDigitChar) = [] then none
  else
    match (cs.reverse.dropWhile isSpaceChar).dropWhile isDigitChar with
    | ' ' :: urev =>
      if '\n' ∈ urev then none
      else some ((cs.reverse.dropWhile isSpaceChar).takeWhile isDigitChar).reverse
    | _ => none

/-- The group `(?P<time>\d+\.?\d*)` of regex 1: a greedy digit run, an
optional dot, a greedy digit run; `none` when no leading digit.  Returns the
captured token and the remaining input. -/
def parseNum (cs : List Char) : Option (List Char × List Char) :=
  if cs.takeWhile isDigitChar = [] then none
  else
    match cs.dropWhile isDigitChar with
    | '.' :: r2t =>
      some (cs.takeWhile isDigitChar ++ '.' :: r2t.takeWhile isDigitChar, r2t.dropWhile isDigitChar)
    | r2 => some (cs.takeWhile isDigitChar, r2)

/-- The group `(?P<unit>\w+)` of regex 1: a greedy nonempty word-char run. -/
def parseUnit (cs : List Char) : Option (List Char × List Char) :=
  if cs.takeWhile isWordChar = [] then none
  else some (cs.takeWhile isWordChar, cs.dropWhile isWordChar)

/-- Regex 1, `^Trace ETA (\d+\.?\d*) \[(\w+)\] %.* (\d+)\s*$`, returning the
`time`, `unit` and `percent` groups. -/
def matchTraceETA (cs : List Char) : Option (List Char × List Char × List Char) :=
  (dropLit ("Trace ETA ").data cs).bind fun r1 =>
  (parseNum r1).bind fun tr =>
  (dropLit (" [").data tr.2).bind fun r4 =>
  (parseUnit r4).bind fun ur =>
  (dropLit ("] %").data ur.2).bind fun r6 =>
  (matchTail r6).map fun pc => (tr.1, ur.1, pc)

/-- Regex 2, `^(?P<percent>\d+) $`: a digit string, one space, then the end of
the line (`$` also matches just before a final newline). -/
def matchPercent (cs : List Char) : Option (List Char) :=
  if cs.takeWhile isDigitChar = [] then none
  else
    match cs.dropWhile isDigitChar with
    | [' '] => some (cs.takeWhile isDigitChar)
    | [' ', '\n'] => some (cs.takeWhile isDigitChar)
    | _ => none

/-- A line of the first recognised shape:
`Trace ETA <t> [<u>] %<mid> <pc>` (so `<pc>` is the final token and is
preceded by a space). -/
def traceLine (t u mid pc : List Char) : List Char :=
  ("Trace ETA ").data ++ (t ++ ' ' :: ('[' :: (u ++ ']' :: (' ' :: ('%' :: (mid ++ ' ' :: pc))))))

/-- A number token `\d+\.?\d*`: an integer part, optionally followed by a dot
and a fractional part. -/
def NumTok (t ip fp : List Char) : Prop :=
  ip ≠ [] ∧ (∀ c ∈ ip, isDigitChar c = true) ∧ (∀ c ∈ fp, isDigitChar c = true) ∧
    (t = ip ∨ t = ip ++ '.' :: fp)

/-! ### Job state and per-job record -/

/-- The `State` enum of multimxrun.py:127. -/
inductive State : Type where
  | WAITING : State
  | RUNNING : State
  | FINISH : State
  | ERROR : State
deriving DecidableEq, Repr

/-- One job of the pool: the mutable per-instance fields of a
`Program`/`ProcManager` instance (`status`, `time`, `running_eta`,
`running_perc`); the process handle is modelled by the oracles. -/
structure Proc where
  status : State
  time : ℚ
  running_eta : ℚ
  running_perc : ℤ
deriving DecidableEq, Repr

/-- A freshly constructed job: `ProcManager.__init__` sets `status = WAITING`,
`time = 0`, and `Program.__init__` sets `running_eta = 0`, `running_perc = 0`. -/
def initProc : Proc := ⟨State.WAITING, 0, 0, 0⟩

/-- `Program.process_output` (multimxrun.py:561): try regex 1, on a match
normalize the time group to seconds by unit (`s`, `min`, `h`; any other unit
leaves the initial `time = 0`) and store it with the percent group; then try
regex 2, on a match store the percent group. -/
def process_output (p : Proc) (output : String) : Proc :=
  let p1 :=
    match matchTraceETA output.data with
    | some g =>
      let time0 : ℚ := 0
      let time1 := if g.2.1 = ("s").data then ratOfNumStr g.1 else time0
      let time2 := if g.2.1 = ("min").data then 60 * ratOfNumStr g.1 else time1
      let time3 := if g.2.1 = ("h").data then 60 * 60 * ratOfNumStr g.1 else time2
      { p with running_eta := time3, running_perc := (natOfDigits g.2.2 : ℤ) }
    | none => p
  match matchPercent output.data with
  | some pc => { p1 with running_perc := (natOfDigits pc : ℤ) }
  | none => p1

/-- `ProcManager.check_status_and_process_output` (multimxrun.py:281): for a
RUNNING job, if `poll()` reports an exit (`some code`, for any return code)
move to FINISH and record the elapsed time, then drain and parse all
available complete output lines; no-op for non-RUNNING jobs. -/
def check_status_and_process_output (p : Proc) (pollRes : Option Int)
    (outs : List String) (now : ℚ) : Proc :=
  if p.status = State.RUNNING then
    let p1 :=
      match pollRes with
      | some _ => { p with status := State.FINISH, time := now - p.time }
      | none => p
    outs.foldl process_output p1
  else p

/-- `ProcManager.invoke_process` (multimxrun.py:262): on spawn success the job
becomes RUNNING with its start time recorded and a truthy handle is returned;
on any spawn failure (the bare `except`) the job becomes ERROR and `None`
(falsy) is returned.  The boolean result models the truthiness of the
returned `self.process`. -/
def invoke_process (p : Proc) (ok : Bool) (now : ℚ) : Proc × Bool :=
  if ok then ({ p with status := State.RUNNING, time := now }, true)
  else ({ p with status := State.ERROR }, false)

/-- The pool: the class-level `procs` list together with the position of the
`_proc` generator (multimxrun.py:220), which steps through `procs` in order
and never revisits an element. -/
structure PoolSt where
  procs : List Proc
  cursor : Nat
deriving Repr

/-- Indicator used by the `count` of the monitor loop
(`if State.RUNNING==s: count += 1`, multimxrun.py:254). -/
def runWt (p : Proc) : Nat := if p.status = State.RUNNING then 1 else 0

/-- Weight of a job for the termination measure: WAITING counts 2,
RUNNING counts 1, the terminal states count 0. -/
def stWt (p : Proc) : Nat :=
  match p.status with
  | State.WAITING => 2
  | State.RUNNING => 1
  | State.FINISH => 0
  | State.ERROR => 0

/-- `sumBy f l` sums `f` over the jobs. -/
def sumBy (f : Proc → Nat) (l : List Proc) : Nat := (l.map f).sum

/-- Number of jobs currently in the RUNNING state (the `count` recomputed
every tick). -/
def countRunning (l : List Proc) : Nat := sumBy runWt l

/-- The termination measure of a job list. -/
def measureW (l : List Proc) : Nat := sumBy stWt l

/-- The `while count < n_process` admission loop shared by
`ProcManager.gen_init_processes` (multimxrun.py:237) and the backfill in
`ProcManager.monitor_output_loop` (multimxrun.py:255): while `count < L`,
`_next_proc` advances the generator and invokes the next job, incrementing
`count` only when the spawn succeeded; the loop breaks when the generator is
exhausted (`StopIteration`, i.e. the cursor has passed the end). -/
def admit_loop (spawn : Nat → Bool) (now : ℚ) (L : Nat) (st : PoolSt) (count : Nat) : PoolSt :=
  if h : count < L ∧ st.cursor < st.procs.length then
    let pr := invoke_process (st.procs.get ⟨st.cursor, h.2⟩) (spawn st.cursor) now
    admit_loop spawn now L ⟨st.procs.set st.cursor pr.1, st.cursor + 1⟩
      (if pr.2 then count + 1 else count)
  else st
termination_by st.procs.length - st.cursor
decreasing_by simp only [List.length_set]; omega

/-- `ProcManager.gen_init_processes` (multimxrun.py:233): the initial
admission batch, starting from `count = 0` with the generator at the head of
the list. -/
def gen_init_processes (spawn : Nat → Bool) (L : Nat) (procs0 : List Proc) : PoolSt :=
  admit_loop spawn 0 L ⟨procs0, 0⟩ 0

/-- `pollPhase exitF outF now i l` is the `for proc in cls.procs` body of
`ProcManager.monitor_output_loop` (multimxrun.py:250): every job is polled
once, in list order, `i` being the index of the first job of `l`. -/
def pollPhase (exitF : Nat → Option Int) (outF : Nat → List String) (now : ℚ) :
    Nat → List Proc → List Proc
  | _, [] => []
  | i, p :: ps =>
    check_status_and_process_output p (exitF i) (outF i) now ::
      pollPhase exitF outF now (i + 1) ps

/-- One iteration of the `while (p_remain)` loop of
`ProcManager.monitor_output_loop` (multimxrun.py:246): poll every job, count
the jobs now RUNNING, then backfill free slots from the generator. -/
def monitor_tick (spawn : Nat → Bool) (L : Nat) (exitF : Nat → Option Int)
    (outF : Nat → List String) (now : ℚ) (st : PoolSt) : PoolSt :=
  admit_loop spawn now L ⟨pollPhase exitF outF now 0 st.procs, st.cursor⟩
    (countRunning (pollPhase exitF outF now 0 st.procs))

/-- The run: state of the pool after the initial batch (`run … 0`) and after
each subsequent monitor tick, on `n` freshly constructed jobs with
concurrency limit `L`.  `spawn j` says whether job `j`'s spawn succeeds;
`exitO t j` is `poll()`'s answer for job `j` at tick `t`; `outO t j` are the
complete lines drained from job `j` at tick `t`. -/
def run (spawn : Nat → Bool) (exitO : Nat → Nat → Option Int)
    (outO : Nat → Nat → List String) (L n : Nat) : Nat → PoolSt
  | 0 => gen_init_processes spawn L (List.replicate n initProc)
  | t + 1 =>
    monitor_tick spawn L (exitO t) (outO t) ((t : ℚ) + 1)
      (run spawn exitO outO L n t)

/-- The pool invariant: the generator cursor is within bounds, at most `L`
jobs are RUNNING, every job the generator has not yet reached is WAITING,
and every job the generator has passed is RUNNING-or-FINISH when its spawn
succeeds and ERROR when it fails. -/
def PoolInv (spawn : Nat → Bool) (L : Nat) (st : PoolSt) : Prop :=
  st.cursor ≤ st.procs.length ∧
  countRunning st.procs ≤ L ∧
  (∀ j (hj : j < st.procs.length), st.cursor ≤ j → (st.procs[j]).status = State.WAITING) ∧
  (∀ j (hj : j < st.procs.length), j < st.cursor →
    (if spawn j then
      (st.procs[j]).status = State.RUNNING ∨ (st.procs[j]).status = State.FINISH
     else (st.procs[j]).status = State.ERROR))

/-- The `t_process < n_process` adjustment of `Program.setup_proc`
(multimxrun.py:448): when fewer jobs than slots exist, the concurrency limit
is lowered to the job count before any job is launched. -/
def setup_n_process (n_process t_process : Nat) : Nat :=
  if t_process < n_process then t_process else n_process

/-! ### Per-tick aggregate status (`Program.print_output_summary`) -/

/-- The accumulator of the `for proc in cls.procs` loop of
`Program.print_output_summary` (multimxrun.py:492). -/
structure Agg where
  finish_time : ℚ
  running_perc : ℤ
  running_eta : ℚ
  running_eta_c : Nat
  finished : Nat
  waiting : Nat
  running : Nat
  error : Nat
deriving Repr

/-- One step of the summary loop: dispatch on the job's state and accumulate
(multimxrun.py:492-506); a RUNNING job's ETA is counted only when it is
truthy (nonzero). -/
def agg_step (a : Agg) (p : Proc) : Agg :=
  match p.status with
  | State.FINISH => { a with finished := a.finished + 1, finish_time := a.finish_time + p.time }
  | State.WAITING => { a with waiting := a.waiting + 1 }
  | State.RUNNING =>
    let a1 := { a with running := a.running + 1, running_perc := a.running_perc + p.running_perc }
    if p.running_eta ≠ 0 then
      { a1 with running_eta_c := a1.running_eta_c + 1, running_eta := a1.running_eta + p.running_eta }
    else a1
  | State.ERROR => { a with error := a.error + 1 }

/-- The rendered per-tick aggregate: counts and the three averages. -/
structure Summary where
  waiting : Nat
  running : Nat
  finished : Nat
  error : Nat
  running_perc_avg : ℚ
  running_eta_avg : ℚ
  finished_avg : ℚ
deriving Repr

/-- `Program.print_output_summary` (multimxrun.py:483): accumulate over all
jobs, then average with a zero default when the corresponding denominator is
zero (Python falsiness, multimxrun.py:510-512). -/
def print_output_summary (procs : List Proc) : Summary :=
  let a := procs.foldl agg_step ⟨0, 0, 0, 0, 0, 0, 0, 0⟩
  { waiting := a.waiting
    running := a.running
    finished := a.finished
    error := a.error
    running_perc_avg := if a.running ≠ 0 then (a.running_perc : ℚ) / (a.running : ℚ) else 0
    running_eta_avg := if a.running_eta_c ≠ 0 then a.running_eta / (a.running_eta_c : ℚ) else 0
    finished_avg := if a.finished ≠ 0 then a.finish_time / (a.finished : ℚ) else 0 }

/-! ### Final cleanup (`Program.check_and_cleanup`) -/

/-- The per-job data `Program.check_and_cleanup` reads: the final state and
the fields naming the expected artifact. -/
structure CJob where
  status : State
  filename : String
  dir_ : String
deriving DecidableEq, Repr

/-- `os.path.join(proc.dir_, proc.filename)` for the relative paths the
program builds. -/
def artifactPath (p : CJob) : String := p.dir_ ++ "/" ++ p.filename

/-- The observable effects of `Program.check_and_cleanup`: the reported
integrity errors, the artifact files concatenated into the output file in
order, the artifact files copied into the final directory in order, and the
directories removed. -/
structure CleanupResult where
  errors : List String
  concatenated : List String
  copied : List String
  removedDirs : List String
deriving DecidableEq, Repr

/-- `Program.check_and_cleanup` (multimxrun.py:518).  `isfile` and `isdir`
model the file system.  When any of the three cleanup actions is requested:
the artifacts of FINISH jobs that are not files are reported as errors
(multimxrun.py:524); then, unless a CSV file was used and there are errors
(`if not (cls.csv and errors)`, multimxrun.py:529), the FINISH jobs whose
artifact is a file are concatenated in list order, copied in list order, and
if requested the directories of FINISH jobs are removed. -/
def check_and_cleanup (procs : List CJob) (output_file : Option String)
    (final_dir : Option String) (remove : Bool) (csv : Bool)
    (isfile : String → Bool) (isdir : String → Bool) : CleanupResult :=
  if output_file.isSome || final_dir.isSome || remove then
    let errors := (procs.filter
      (fun p => decide (p.status = State.FINISH) && !isfile (artifactPath p))).map artifactPath
    if !(csv && !errors.isEmpty) then
      let valid := (procs.filter
        (fun p => decide (p.status = State.FINISH) && isfile (artifactPath p))).map artifactPath
      { errors := errors
        concatenated := if output_file.isSome then valid else []
        copied := if final_dir.isSome then valid else []
        removedDirs := if remove then
            ((procs.filter (fun p => decide (p.status = State.FINISH) && isdir p.dir_)).map
              (fun p => p.dir_))
          else [] }
    else ⟨errors, [], [], []⟩
  else ⟨[], [], [], []⟩

/-! ### Helper lemmas about `takeWhile`/`dropWhile` and the char classes -/

theorem takeWhile_append_of_all {α : Type} {q : α → Bool} :
    ∀ (l r : List α), (∀ c ∈ l, q c = true) → (l ++ r).takeWhile q = l ++ r.takeWhile q := by
  intro l r h
  induction l with
  | nil => simp
  | cons c cs ih =>
    have hc : q c = true := h c (by simp)
    have ih2 := ih (fun x hx => h x (by simp [hx]))
    simp [List.takeWhile_cons, hc, ih2]

theorem dropWhile_append_of_all {α : Type} {q : α → Bool} :
    ∀ (l r : List α), (∀ c ∈ l, q c = true) → (l ++ r).dropWhile q = r.dropWhile q := by
  intro l r h
  induction l with
  | nil => simp
  | cons c cs ih =>
    have hc : q c = true := h c (by simp)
    have ih2 := ih (fun x hx => h x (by simp [hx]))
    simp [List.dropWhile_cons, hc, ih2]

theorem digit_not_space {c : Char} (h : isDigitChar c = true) : isSpaceChar c = false := by
  simp only [isDigitChar, Bool.and_eq_true, decide_eq_true_eq] at h
  simp only [isSpaceChar, Bool.or_eq_false_iff, decide_eq_false_iff_not]
  refine ⟨⟨⟨⟨⟨?_, ?_⟩, ?_⟩, ?_⟩, ?_⟩, ?_⟩ <;> rintro rfl <;> revert h <;> decide

theorem dropLit_append : ∀ (p cs : List Char), dropLit p (p ++ cs) = some cs := by
  intro p
  induction p with
  | nil => intro cs; rfl
  | cons c cs ih => intro r; simp [dropLit, ih]

/-! ### Behaviour of the regex models on well-shaped lines -/

/-- `matchTail` on text of the shape `mid ++ ' ' :: pc` with `pc` a nonempty
digit string and `mid` newline-free captures exactly `pc`. -/
theorem matchTail_spec (mid pc : List Char) (hpc : pc ≠ [])
    (hpcd : ∀ c ∈ pc, isDigitChar c = true) (hmid : '\n' ∉ mid) :
    matchTail (mid ++ ' ' :: pc) = some pc := by
  have hrev : (mid ++ ' ' :: pc).reverse = pc.reverse ++ ' ' :: mid.reverse := by
    simp
  unfold matchTail
  rw [hrev]
  obtain ⟨c, rest, hc⟩ : ∃ c rest, pc.reverse = c :: rest := by
    cases h : pc.reverse with
    | nil => exact absurd (List.reverse_eq_nil_iff.mp h) hpc
    | cons c rest => exact ⟨c, rest, rfl⟩
  have hcd : isDigitChar c = true :=
    hpcd c (by rw [← List.mem_reverse, hc]; simp)
  have hdw : (pc.reverse ++ ' ' :: mid.reverse).dropWhile isSpaceChar
      = pc.reverse ++ ' ' :: mid.reverse := by
    rw [hc, List.cons_append, List.dropWhile_cons_of_neg]
    simp [digit_not_space hcd]
  rw [hdw]
  have hallrev : ∀ x ∈ pc.reverse, isDigitChar x = true := by
    intro x hx; exact hpcd x (List.mem_reverse.mp hx)
  have htw : (pc.reverse ++ ' ' :: mid.reverse).takeWhile isDigitChar = pc.reverse := by
    rw [takeWhile_append_of_all _ _ hallrev, List.takeWhile_cons_of_neg (by decide), List.append_nil]
  have hdw2 : (pc.reverse ++ ' ' :: mid.reverse).dropWhile isDigitChar = ' ' :: mid.reverse := by
    rw [dropWhile_append_of_all _ _ hallrev, List.dropWhile_cons_of_neg (by decide)]
  rw [htw, hdw2]
  have hne : pc.reverse ≠ [] := by rw [hc]; simp
  have hnl : ¬ ('\n' ∈ mid.reverse) := by
    rw [List.mem_reverse]; exact hmid
  simp [hne, hnl]

/-- `parseNum` on a number token followed by a space captures the token. -/
theorem parseNum_spec (t ip fp more : List Char) (ht : NumTok t ip fp) :
    parseNum (t ++ ' ' :: more) = some (t, ' ' :: more) := by
  obtain ⟨hip, hipd, hfpd, hteq⟩ := ht
  rcases hteq with rfl | rfl
  · unfold parseNum
    rw [takeWhile_append_of_all _ _ hipd, dropWhile_append_of_all _ _ hipd,
      List.takeWhile_cons_of_neg (by decide), List.dropWhile_cons_of_neg (by decide),
      List.append_nil]
    simp [hip]
  · unfold parseNum
    rw [show ip ++ '.' :: fp ++ ' ' :: more = ip ++ '.' :: (fp ++ ' ' :: more) by simp,
      takeWhile_append_of_all _ _ hipd, dropWhile_append_of_all _ _ hipd,
      List.takeWhile_cons_of_neg (by decide), List.dropWhile_cons_of_neg (by decide),
      List.append_nil]
    simp only [hip, if_neg, List.takeWhile_cons, Option.some.injEq, Prod.mk.injEq]
    rw [takeWhile_append_of_all _ _ hfpd, dropWhile_append_of_all _ _ hfpd,
      List.takeWhile_cons_of_neg (by decide), List.dropWhile_cons_of_neg (by decide),
      List.append_nil]
    simp

/-- `parseUnit` on a word-char token followed by `]` captures the token. -/
theorem parseUnit_spec (u more : List Char) (hu : u ≠ [])
    (huw : ∀ c ∈ u, isWordChar c = true) :
    parseUnit (u ++ ']' :: more) = some (u, ']' :: more) := by
  unfold parseUnit
  rw [takeWhile_append_of_all _ _ huw, dropWhile_append_of_all _ _ huw,
    List.takeWhile_cons_of_neg (by decide), List.dropWhile_cons_of_neg (by decide),
    List.append_nil]
  simp [hu]

/-- `matchTraceETA` on a well-shaped line captures the three groups. -/
theorem matchTraceETA_spec (t u mid pc ip fp : List Char)
    (ht : NumTok t ip fp)
    (hu : u ≠ []) (huw : ∀ c ∈ u, isWordChar c = true)
    (hmid : '\n' ∉ mid)
    (hpc : pc ≠ []) (hpcd : ∀ c ∈ pc, isDigitChar c = true) :
    matchTraceETA (traceLine t u mid pc) = some (t, u, pc) := by
  have h1 : traceLine t u mid pc
      = ("Trace ETA ").data ++ (t ++ ' ' :: ('[' :: (u ++ ']' :: (' ' :: ('%' :: (mid ++ ' ' :: pc)))))) := rfl
  have h2 : (' ' :: ('[' :: (u ++ ']' :: (' ' :: ('%' :: (mid ++ ' ' :: pc))))) : List Char)
      = (" [").data ++ (u ++ ']' :: (' ' :: ('%' :: (mid ++ ' ' :: pc)))) := rfl
  have h3 : ((']' :: (' ' :: ('%' :: (mid ++ ' ' :: pc)))) : List Char)
      = ("] %").data ++ (mid ++ ' ' :: pc) := rfl
  unfold matchTraceETA
  rw [h1, dropLit_append]
  simp only [Option.some_bind]
  rw [parseNum_spec t ip fp _ ht]
  simp only [Option.some_bind]
  rw [h2, dropLit_append]
  simp only [Option.some_bind]
  rw [parseUnit_spec u _ hu huw]
  simp only [Option.some_bind]
  rw [h3, dropLit_append]
  simp only [Option.some_bind]
  rw [matchTail_spec mid pc hpc hpcd hmid]
  rfl

/-- `matchTraceETA` rejects any line starting with a digit (it must start
with `T`). -/
theorem matchTraceETA_cons_digit (c : Char) (cs : List Char)
    (h : isDigitChar c = true) : matchTraceETA (c :: cs) = none := by
  have hne : c ≠ 'T' := by rintro rfl; revert h; decide
  unfold matchTraceETA
  rw [show dropLit ("Trace ETA ").data (c :: cs)
      = if c = 'T' then dropLit ("race ETA ").data cs else none from rfl, if_neg hne]
  rfl

/-- `matchPercent` rejects any line starting with `T`. -/
theorem matchPercent_traceLine (t u mid pc : List Char) :
    matchPercent (traceLine t u mid pc) = none := by
  rw [show traceLine t u mid pc
      = 'T' :: (("race ETA ").data ++ (t ++ ' ' :: ('[' :: (u ++ ']' :: (' ' :: ('%' :: (mid ++ ' ' :: pc))))))) from rfl]
  unfold matchPercent
  rw [List.takeWhile_cons_of_neg (by decide)]
  simp

/-- `matchPercent` on a nonempty digit string followed by one space captures
the digit string. -/
theorem matchPercent_spec (pc : List Char) (hpc : pc ≠ [])
    (hpcd : ∀ c ∈ pc, isDigitChar c = true) :
    matchPercent (pc ++ [' ']) = some pc := by
  unfold matchPercent
  rw [takeWhile_append_of_all _ _ hpcd, dropWhile_append_of_all _ _ hpcd,
    List.takeWhile_cons_of_neg (by decide), List.dropWhile_cons_of_neg (by decide),
    List.append_nil]
  simp [hpc]

/-! ### Facts about `process_output` -/

/-- `process_output` never changes the job's state or its timestamp: the only
state the parser keeps are the stored ETA and percent. -/
theorem process_output_keeps_status_time (p : Proc) (out : String) :
    (process_output p out).status = p.status ∧ (process_output p out).time = p.time := by
  unfold process_output
  cases matchTraceETA out.data <;> cases matchPercent out.data <;> exact ⟨rfl, rfl⟩

/-- Draining any list of lines never changes the job's state or timestamp. -/
theorem foldl_process_output_keeps_status_time (outs : List String) :
    ∀ p : Proc, ((outs.foldl process_output p).status = p.status ∧
      (outs.foldl process_output p).time = p.time) := by
  induction outs with
  | nil => intro p; exact ⟨rfl, rfl⟩
  | cons o os ih =>
    intro p
    have h1 := process_output_keeps_status_time p o
    have h2 := ih (process_output p o)
    exact ⟨h2.1.trans h1.1, h2.2.trans h1.2⟩

/-- `process_output` on a well-shaped `Trace ETA` line: the stored ETA becomes
the time group scaled by the unit's factor (`h` ×3600, `min` ×60, `s` ×1, in
the source's testing order, any other word leaving the initial 0), and the
stored percent becomes the final integer token. -/
theorem process_output_traceLine (p : Proc) (t u mid pc ip fp : List Char)
    (ht : NumTok t ip fp)
    (hu : u ≠ []) (huw : ∀ c ∈ u, isWordChar c = true)
    (hmid : '\n' ∉ mid)
    (hpc : pc ≠ []) (hpcd : ∀ c ∈ pc, isDigitChar c = true) :
    process_output p (String.mk (traceLine t u mid pc)) =
      { p with
        running_eta :=
          if u = ("h").data then 60 * 60 * ratOfNumStr t
          else if u = ("min").data then 60 * ratOfNumStr t
          else if u = ("s").data then ratOfNumStr t
          else 0,
        running_perc := (natOfDigits pc : ℤ) } := by
  unfold process_output
  rw [show (String.mk (traceLine t u mid pc)).data = traceLine t u mid pc from rfl,
    matchTraceETA_spec t u mid pc ip fp ht hu huw hmid hpc hpcd,
    matchPercent_traceLine t u mid pc]

/-! ### Status evolution of one polled job -/

/-- The state after one poll step: a RUNNING job whose process has exited
(any return code) becomes FINISH, a RUNNING job still running stays RUNNING,
every other job is untouched. -/
theorem check_status_status (p : Proc) (e : Option Int) (os : List String) (now : ℚ) :
    (check_status_and_process_output p e os now).status =
      if p.status = State.RUNNING then
        (match e with | some _ => State.FINISH | none => State.RUNNING)
      else p.status := by
  unfold check_status_and_process_output
  by_cases h : p.status = State.RUNNING
  · cases e <;>
      simp [h, (foldl_process_output_keeps_status_time os _).1]
  · simp [h]

/-! ### Counting and the termination measure -/

theorem sumBy_set (f : Proc → Nat) :
    ∀ (l : List Proc) (i : Nat) (a : Proc) (h : i < l.length),
      sumBy f (l.set i a) + f l[i] = sumBy f l + f a := by
  intro l
  induction l with
  | nil => intro i a h; simp at h
  | cons p ps ih =>
    intro i a h
    cases i with
    | zero => simp [sumBy]; omega
    | succ k =>
      have hk : k < ps.length := by simpa using h
      have := ih k a hk
      simp only [List.set_cons_succ, sumBy, List.map_cons, List.sum_cons,
        List.getElem_cons_succ] at this ⊢
      omega

/-- Pointwise: polling cannot increase a job's `runWt`. -/
theorem runWt_check_le (p : Proc) (e : Option Int) (os : List String) (now : ℚ) :
    runWt (check_status_and_process_output p e os now) ≤ runWt p := by
  unfold runWt
  rw [check_status_status]
  by_cases h : p.status = State.RUNNING
  · cases e <;> simp [h]
  · simp [h]

/-- Pointwise: polling cannot increase a job's measure weight. -/
theorem stWt_check_le (p : Proc) (e : Option Int) (os : List String) (now : ℚ) :
    stWt (check_status_and_process_output p e os now) ≤ stWt p := by
  unfold stWt
  rw [check_status_status]
  by_cases h : p.status = State.RUNNING
  · cases e <;> simp [h]
  · simp [h]

theorem pollPhase_length (e : Nat → Option Int) (o : Nat → List String) (now : ℚ) :
    ∀ (i : Nat) (l : List Proc), (pollPhase e o now i l).length = l.length := by
  intro i l
  induction l generalizing i with
  | nil => rfl
  | cons p ps ih => simp [pollPhase, ih]

theorem pollPhase_getElem (e : Nat → Option Int) (o : Nat → List String) (now : ℚ) :
    ∀ (l : List Proc) (i j : Nat) (h : j < (pollPhase e o now i l).length)
      (h2 : j < l.length),
      (pollPhase e o now i l)[j] =
        check_status_and_process_output l[j] (e (i + j)) (o (i + j)) now := by
  intro l
  induction l with
  | nil => intro i j h h2; simp at h2
  | cons p ps ih =>
    intro i j h h2
    cases j with
    | zero => simp [pollPhase]
    | succ k =>
      have hk : k < ps.length := by simpa using h2
      have hk2 : k < (pollPhase e o now (i + 1) ps).length := by
        rw [pollPhase_length]; exact hk
      simp only [pollPhase, List.getElem_cons_succ]
      rw [ih (i + 1) k hk2 hk]
      have : i + 1 + k = i + (k + 1) := by omega
      rw [this]

/-- Polling cannot increase any `sumBy` over a pointwise nonincreasing `f`. -/
theorem sumBy_pollPhase_le (f : Proc → Nat)
    (hf : ∀ p e os now, f (check_status_and_process_output p e os now) ≤ f p)
    (e : Nat → Option Int) (o : Nat → List String) (now : ℚ) :
    ∀ (i : Nat) (l : List Proc), sumBy f (pollPhase e o now i l) ≤ sumBy f l := by
  intro i l
  induction l generalizing i with
  | nil => exact Nat.le_refl _
  | cons p ps ih =>
    simp only [pollPhase, sumBy, List.map_cons, List.sum_cons]
    exact Nat.add_le_add (hf p _ _ _) (ih (i + 1))

/-- Polling strictly decreases a `sumBy` when it strictly decreases at some
index. -/
theorem sumBy_pollPhase_lt (f : Proc → Nat)
    (hf : ∀ p e os now, f (check_status_and_process_output p e os now) ≤ f p)
    (e : Nat → Option Int) (o : Nat → List String) (now : ℚ) :
    ∀ (l : List Proc) (i j : Nat) (h : j < l.length),
      f (check_status_and_process_output l[j] (e (i + j)) (o (i + j)) now) < f l[j] →
      sumBy f (pollPhase e o now i l) < sumBy f l := by
  intro l
  induction l with
  | nil => intro i j h; simp at h
  | cons p ps ih =>
    intro i j h hlt
    cases j with
    | zero =>
      simp only [List.getElem_cons_zero] at hlt
      simp only [pollPhase, sumBy, List.map_cons, List.sum_cons]
      have : i + 0 = i := by omega
      rw [this] at hlt
      exact Nat.add_lt_add_of_lt_of_le hlt (sumBy_pollPhase_le f hf e o now (i + 1) ps)
    | succ k =>
      have hk : k < ps.length := by simpa using h
      simp only [List.getElem_cons_succ] at hlt
      have : i + (k + 1) = (i + 1) + k := by omega
      rw [this] at hlt
      simp only [pollPhase, sumBy, List.map_cons, List.sum_cons]
      exact Nat.add_lt_add_of_le_of_lt (hf p _ _ _) (ih (i + 1) k hk hlt)

/-! ### The admission loop -/

/-- One unfolding of `admit_loop` when the guard holds. -/
theorem admit_loop_step (spawn : Nat → Bool) (now : ℚ) (L : Nat) (st : PoolSt) (count : Nat)
    (h : count < L) (h2 : st.cursor < st.procs.length) :
    admit_loop spawn now L st count =
      admit_loop spawn now L
        ⟨st.procs.set st.cursor
          (invoke_process (st.procs.get ⟨st.cursor, h2⟩) (spawn st.cursor) now).1,
         st.cursor + 1⟩
        (if (invoke_process (st.procs.get ⟨st.cursor, h2⟩) (spawn st.cursor) now).2 then
          count + 1 else count) := by
  rw [admit_loop, dif_pos ⟨h, h2⟩]

/-- Master lemma for `admit_loop`: starting from a state whose unvisited
segment is all WAITING and with `count` equal to the current RUNNING count,
the loop preserves the list length, only advances the cursor, keeps the
RUNNING count at most `L`, leaves the unvisited segment WAITING and the
already-visited entries untouched, marks each newly visited job RUNNING or
ERROR according to its spawn, and never increases the measure — strictly
decreasing it whenever it admits at least one job. -/
theorem admit_loop_spec (spawn : Nat → Bool) (now : ℚ) (L : Nat) :
    ∀ (fuel : Nat) (st : PoolSt) (count : Nat),
      st.procs.length - st.cursor ≤ fuel →
      st.cursor ≤ st.procs.length →
      count = countRunning st.procs →
      (∀ j (hj : j < st.procs.length), st.cursor ≤ j → (st.procs[j]).status = State.WAITING) →
      ((admit_loop spawn now L st count).procs.length = st.procs.length ∧
       st.cursor ≤ (admit_loop spawn now L st count).cursor ∧
       (admit_loop spawn now L st count).cursor ≤ (admit_loop spawn now L st count).procs.length ∧
       (count ≤ L → countRunning (admit_loop spawn now L st count).procs ≤ L) ∧
       (∀ j (hj : j < (admit_loop spawn now L st count).procs.length),
          (admit_loop spawn now L st count).cursor ≤ j →
          ((admit_loop spawn now L st count).procs[j]).status = State.WAITING) ∧
       (∀ j (hj : j < (admit_loop spawn now L st count).procs.length)
          (hj2 : j < st.procs.length),
          j < st.cursor → (admit_loop spawn now L st count).procs[j] = st.procs[j]) ∧
       (∀ j (hj : j < (admit_loop spawn now L st count).procs.length),
          st.cursor ≤ j → j < (admit_loop spawn now L st count).cursor →
          ((admit_loop spawn now L st count).procs[j]).status =
            (if spawn j then State.RUNNING else State.ERROR)) ∧
       measureW (admit_loop spawn now L st count).procs ≤ measureW st.procs ∧
       ((count < L ∧ st.cursor < st.procs.length) →
          measureW (admit_loop spawn now L st count).procs < measureW st.procs)) := by
  intro fuel
  induction fuel with
  | zero =>
    intro st count hfuel hc hcount hwait
    have hstop : ¬(count < L ∧ st.cursor < st.procs.length) := by omega
    rw [admit_loop, dif_neg hstop]
    refine ⟨rfl, Nat.le_refl _, hc, fun h => hcount ▸ h, hwait, fun j hj hj2 _ => rfl,
      fun j hj h1 h2 => absurd h1 (by omega), Nat.le_refl _, fun h => absurd h hstop⟩
  | succ fuel ih =>
    intro st count hfuel hc hcount hwait
    by_cases hcond : count < L ∧ st.cursor < st.procs.length
    · obtain ⟨hcl, hcc⟩ := hcond
      have hwcur : (st.procs[st.cursor]).status = State.WAITING :=
        hwait st.cursor hcc (Nat.le_refl _)
      -- the invoked job and the updated state
      cases hok : spawn st.cursor with
      | true =>
        set p1 : Proc := { st.procs.get ⟨st.cursor, hcc⟩ with status := State.RUNNING, time := now }
          with hp1
        rw [admit_loop_step spawn now L st count hcl hcc, hok,
          show (invoke_process (st.procs.get ⟨st.cursor, hcc⟩) true now).1 = p1 from rfl,
          show (invoke_process (st.procs.get ⟨st.cursor, hcc⟩) true now).2 = true from rfl,
          if_pos rfl]
        have hget : st.procs.get ⟨st.cursor, hcc⟩ = st.procs[st.cursor] := rfl
        have hlenset : (st.procs.set st.cursor p1).length = st.procs.length :=
          List.length_set ..
        have hcnt : countRunning (st.procs.set st.cursor p1) = count + 1 := by
          have h := sumBy_set runWt st.procs st.cursor p1 hcc
          have h0 : runWt st.procs[st.cursor] = 0 := by
            unfold runWt; rw [hwcur]; decide
          have h1 : runWt p1 = 1 := by unfold runWt; rw [hp1]; rfl
          rw [h0, h1] at h
          unfold countRunning at hcount ⊢
          omega
        have hmeas : measureW (st.procs.set st.cursor p1) + 2 = measureW st.procs + 1 := by
          have h := sumBy_set stWt st.procs st.cursor p1 hcc
          have h0 : stWt st.procs[st.cursor] = 2 := by
            unfold stWt; rw [hwcur]
          have h1 : stWt p1 = 1 := by unfold stWt; rw [hp1]
          rw [h0, h1] at h
          unfold measureW
          omega
        have hwait2 : ∀ j (hj : j < (st.procs.set st.cursor p1).length),
            st.cursor + 1 ≤ j → ((st.procs.set st.cursor p1)[j]).status = State.WAITING := by
          intro j hj hcj
          rw [List.getElem_set_of_ne (by omega)]
          exact hwait j (by rw [hlenset] at hj; exact hj) (by omega)
        have hrec := ih ⟨st.procs.set st.cursor p1, st.cursor + 1⟩ (count + 1)
          (by simp only [hlenset]; omega) (by simp only [hlenset]; omega)
          (by rw [hcnt]) hwait2
        obtain ⟨r1, r2, r3, r4, r5, r6, r7, r8, _⟩ := hrec
        dsimp only at r1 r2 r3 r4 r5 r6 r7 r8 ⊢
        refine ⟨by rw [r1]; exact hlenset, by omega, r3, ?_, r5, ?_, ?_, ?_, ?_⟩
        · intro hcle
          exact r4 (by omega)
        · intro j hj hj2 hjc
          rw [r6 j hj (by simp only [hlenset]; omega) (by omega),
            List.getElem_set_of_ne (by omega)]
        · intro j hj h1 h2
          by_cases hje : j = st.cursor
          · subst hje
            rw [r6 st.cursor hj (by simp only [hlenset]; omega) (by omega),
              List.getElem_set_self (by omega), hok]
            rfl
          · exact r7 j hj (by omega) h2
        · calc measureW (admit_loop spawn now L ⟨st.procs.set st.cursor p1, st.cursor + 1⟩ (count + 1)).procs
              ≤ measureW (st.procs.set st.cursor p1) := r8
            _ ≤ measureW st.procs := by omega
        · intro _
          calc measureW (admit_loop spawn now L ⟨st.procs.set st.cursor p1, st.cursor + 1⟩ (count + 1)).procs
              ≤ measureW (st.procs.set st.cursor p1) := r8
            _ < measureW st.procs := by omega
      | false =>
        set p1 : Proc := { st.procs.get ⟨st.cursor, hcc⟩ with status := State.ERROR } with hp1
        rw [admit_loop_step spawn now L st count hcl hcc, hok,
          show (invoke_process (st.procs.get ⟨st.cursor, hcc⟩) false now).1 = p1 from rfl,
          show (invoke_process (st.procs.get ⟨st.cursor, hcc⟩) false now).2 = false from rfl,
          if_neg Bool.false_ne_true]
        have hlenset : (st.procs.set st.cursor p1).length = st.procs.length :=
          List.length_set ..
        have hcnt : countRunning (st.procs.set st.cursor p1) = count := by
          have h := sumBy_set runWt st.procs st.cursor p1 hcc
          have h0 : runWt st.procs[st.cursor] = 0 := by
            unfold runWt; rw [hwcur]; decide
          have h1 : runWt p1 = 0 := by unfold runWt; rw [hp1]; rfl
          rw [h0, h1] at h
          unfold countRunning at hcount ⊢
          omega
        have hmeas : measureW (st.procs.set st.cursor p1) + 2 = measureW st.procs := by
          have h := sumBy_set stWt st.procs st.cursor p1 hcc
          have h0 : stWt st.procs[st.cursor] = 2 := by
            unfold stWt; rw [hwcur]
          have h1 : stWt p1 = 0 := by unfold stWt; rw [hp1]
          rw [h0, h1] at h
          unfold measureW
          omega
        have hwait2 : ∀ j (hj : j < (st.procs.set st.cursor p1).length),
            st.cursor + 1 ≤ j → ((st.procs.set st.cursor p1)[j]).status = State.WAITING := by
          intro j hj hcj
          rw [List.getElem_set_of_ne (by omega)]
          exact hwait j (by rw [hlenset] at hj; exact hj) (by omega)
        have hrec := ih ⟨st.procs.set st.cursor p1, st.cursor + 1⟩ count
          (by simp only [hlenset]; omega) (by simp only [hlenset]; omega)
          (by rw [hcnt]) hwait2
        obtain ⟨r1, r2, r3, r4, r5, r6, r7, r8, _⟩ := hrec
        dsimp only at r1 r2 r3 r4 r5 r6 r7 r8 ⊢
        refine ⟨by rw [r1]; exact hlenset, by omega, r3, ?_, r5, ?_, ?_, ?_, ?_⟩
        · intro hcle
          exact r4 hcle
        · intro j hj hj2 hjc
          rw [r6 j hj (by simp only [hlenset]; omega) (by omega),
            List.getElem_set_of_ne (by omega)]
        · intro j hj h1 h2
          by_cases hje : j = st.cursor
          · subst hje
            rw [r6 st.cursor hj (by simp only [hlenset]; omega) (by omega),
              List.getElem_set_self (by omega), hok]
            rfl
          · exact r7 j hj (by omega) h2
        · calc measureW (admit_loop spawn now L ⟨st.procs.set st.cursor p1, st.cursor + 1⟩ count).procs
              ≤ measureW (st.procs.set st.cursor p1) := r8
            _ ≤ measureW st.procs := by omega
        · intro _
          calc measureW (admit_loop spawn now L ⟨st.procs.set st.cursor p1, st.cursor + 1⟩ count).procs
              ≤ measureW (st.procs.set st.cursor p1) := r8
            _ < measureW st.procs := by omega
    · rw [admit_loop, dif_neg hcond]
      refine ⟨rfl, Nat.le_refl _, hc, fun h => hcount ▸ h, hwait, fun j hj hj2 _ => rfl,
        fun j hj h1 h2 => absurd h1 (by omega), Nat.le_refl _, fun h => absurd h hcond⟩

/-! ### Sum positivity/zero helpers -/

theorem sumBy_eq_zero_all (f : Proc → Nat) :
    ∀ (l : List Proc), sumBy f l = 0 → ∀ j (hj : j < l.length), f l[j] = 0 := by
  intro l
  induction l with
  | nil => intro _ j hj; simp at hj
  | cons p ps ih =>
    intro h j hj
    simp only [sumBy, List.map_cons, List.sum_cons] at h
    cases j with
    | zero => simp only [List.getElem_cons_zero]; omega
    | succ k =>
      simp only [List.getElem_cons_succ]
      exact ih (by unfold sumBy; omega) k (by simpa using hj)

theorem sumBy_pos_exists (f : Proc → Nat) :
    ∀ (l : List Proc), 0 < sumBy f l → ∃ j, ∃ (hj : j < l.length), 0 < f l[j] := by
  intro l
  induction l with
  | nil => intro h; simp [sumBy] at h
  | cons p ps ih =>
    intro h
    simp only [sumBy, List.map_cons, List.sum_cons] at h
    by_cases hp : 0 < f p
    · exact ⟨0, by simp, by simpa using hp⟩
    · have : 0 < sumBy f ps := by unfold sumBy; omega
      obtain ⟨j, hj, hfj⟩ := ih this
      exact ⟨j + 1, by simpa using hj, by simpa using hfj⟩

/-! ### The run: invariant preservation, tick by tick -/

section RunFacts

variable (spawn : Nat → Bool) (exitO : Nat → Nat → Option Int)
variable (outO : Nat → Nat → List String) (L n : Nat)

theorem countRunning_replicate : countRunning (List.replicate n initProc) = 0 := by
  simp [countRunning, sumBy, List.map_replicate, List.sum_replicate, runWt, initProc]

/-- Status of one entry after the poll phase. -/
theorem pollPhase_status (e : Nat → Option Int) (o : Nat → List String) (now : ℚ)
    (l : List Proc) (j : Nat) (hjp : j < (pollPhase e o now 0 l).length)
    (hj : j < l.length) :
    ((pollPhase e o now 0 l)[j]).status =
      if (l[j]).status = State.RUNNING then
        (match e j with | some _ => State.FINISH | none => State.RUNNING)
      else (l[j]).status := by
  rw [pollPhase_getElem e o now l 0 j hjp hj, check_status_status]
  simp only [Nat.zero_add]

/-- The invariant holds after the initial batch and after every tick, and the
job list always has `n` entries. -/
theorem run_inv :
    ∀ t, PoolInv spawn L (run spawn exitO outO L n t) ∧
      (run spawn exitO outO L n t).procs.length = n := by
  intro t
  induction t with
  | zero =>
    have hwait0 : ∀ j (hj : j < (List.replicate n initProc).length),
        (0 : Nat) ≤ j → ((List.replicate n initProc)[j]).status = State.WAITING := by
      intro j hj _
      rw [List.getElem_replicate]
      rfl
    have hmaster := admit_loop_spec spawn 0 L n ⟨List.replicate n initProc, 0⟩ 0
      (by simp) (by simp) (countRunning_replicate n).symm hwait0
    obtain ⟨r1, r2, r3, r4, r5, r6, r7, r8, r9⟩ := hmaster
    dsimp only at r1 r3 r4 r5 r7
    have hres : run spawn exitO outO L n 0
        = admit_loop spawn 0 L ⟨List.replicate n initProc, 0⟩ 0 := rfl
    rw [hres]
    refine ⟨⟨r3, r4 (Nat.zero_le L), r5, ?_⟩, by rw [r1]; simp⟩
    intro j hj hjc
    have hst := r7 j hj (Nat.zero_le j) hjc
    cases hs : spawn j with
    | true => rw [hs] at hst; simp at hst; simp [hst]
    | false => rw [hs] at hst; simp at hst; simp [hst]
  | succ t iht =>
    obtain ⟨⟨hc, hcnt, hwait, hok⟩, hlen⟩ := iht
    have hres : run spawn exitO outO L n (t + 1)
        = admit_loop spawn ((t : ℚ) + 1) L
            ⟨pollPhase (exitO t) (outO t) ((t : ℚ) + 1) 0 (run spawn exitO outO L n t).procs,
             (run spawn exitO outO L n t).cursor⟩
            (countRunning (pollPhase (exitO t) (outO t) ((t : ℚ) + 1) 0
              (run spawn exitO outO L n t).procs)) := rfl
    have hplen : (pollPhase (exitO t) (outO t) ((t : ℚ) + 1) 0
        (run spawn exitO outO L n t).procs).length
        = (run spawn exitO outO L n t).procs.length := pollPhase_length _ _ _ _ _
    have hpw : ∀ j (hj : j < (pollPhase (exitO t) (outO t) ((t : ℚ) + 1) 0
        (run spawn exitO outO L n t).procs).length),
        (run spawn exitO outO L n t).cursor ≤ j →
        ((pollPhase (exitO t) (outO t) ((t : ℚ) + 1) 0
          (run spawn exitO outO L n t).procs)[j]).status = State.WAITING := by
      intro j hj hcj
      have hj2 : j < (run spawn exitO outO L n t).procs.length := by omega
      rw [pollPhase_status (exitO t) (outO t) _ _ j hj hj2]
      rw [hwait j hj2 hcj]
      simp
    have hpcnt : countRunning (pollPhase (exitO t) (outO t) ((t : ℚ) + 1) 0
        (run spawn exitO outO L n t).procs) ≤ L :=
      Nat.le_trans (sumBy_pollPhase_le runWt runWt_check_le _ _ _ 0 _) hcnt
    have hmaster := admit_loop_spec spawn ((t : ℚ) + 1) L
      ((run spawn exitO outO L n t).procs.length)
      ⟨pollPhase (exitO t) (outO t) ((t : ℚ) + 1) 0 (run spawn exitO outO L n t).procs,
       (run spawn exitO outO L n t).cursor⟩
      (countRunning (pollPhase (exitO t) (outO t) ((t : ℚ) + 1) 0
        (run spawn exitO outO L n t).procs))
      (by dsimp only; omega) (by dsimp only; omega) rfl hpw
    obtain ⟨r1, r2, r3, r4, r5, r6, r7, r8, r9⟩ := hmaster
    dsimp only at r1 r2 r3 r4 r5 r6 r7
    rw [hres]
    refine ⟨⟨r3, r4 hpcnt, r5, ?_⟩, by omega⟩
    intro j hj hjc
    have hj2 : j < (run spawn exitO outO L n t).procs.length := by omega
    have hjp : j < (pollPhase (exitO t) (outO t) ((t : ℚ) + 1) 0
        (run spawn exitO outO L n t).procs).length := by omega
    by_cases hjold : j < (run spawn exitO outO L n t).cursor
    · -- untouched by the admission loop: its status comes from the poll phase
      rw [r6 j hj hjp hjold, pollPhase_status (exitO t) (outO t) _ _ j hjp hj2]
      have hold := hok j hj2 hjold
      cases hs : spawn j with
      | true =>
        rw [hs] at hold
        simp only [if_true] at hold ⊢
        rcases hold with hrun | hfin
        · simp only [hrun, if_true]
          cases exitO t j <;> simp
        · simp [hfin]
      | false =>
        rw [hs] at hold
        simp only [Bool.false_eq_true, if_false] at hold ⊢
        simp [hold]
    · -- freshly admitted in this tick
      have hfresh := r7 j hj (by omega) hjc
      cases hs : spawn j with
      | true => rw [hs] at hfresh; simp at hfresh; simp [hs, hfresh]
      | false => rw [hs] at hfresh; simp at hfresh; simp [hs, hfresh]

/-- Facts relating one tick to the next: length is preserved, the cursor only
advances, the measure never increases through the poll phase nor through the
backfill, already-visited entries are exactly the polled entries, and the
backfill strictly decreases the measure when it can admit a job. -/
theorem run_succ_spec (t : Nat) :
    (run spawn exitO outO L n (t + 1)).procs.length = n ∧
    (run spawn exitO outO L n t).cursor ≤ (run spawn exitO outO L n (t + 1)).cursor ∧
    measureW (run spawn exitO outO L n (t + 1)).procs ≤
      measureW (pollPhase (exitO t) (outO t) ((t : ℚ) + 1) 0 (run spawn exitO outO L n t).procs) ∧
    measureW (pollPhase (exitO t) (outO t) ((t : ℚ) + 1) 0 (run spawn exitO outO L n t).procs) ≤
      measureW (run spawn exitO outO L n t).procs ∧
    (∀ j (hj2 : j < (run spawn exitO outO L n (t + 1)).procs.length)
      (hjp : j < (pollPhase (exitO t) (outO t) ((t : ℚ) + 1) 0
        (run spawn exitO outO L n t).procs).length),
      j < (run spawn exitO outO L n t).cursor →
      (run spawn exitO outO L n (t + 1)).procs[j] =
        (pollPhase (exitO t) (outO t) ((t : ℚ) + 1) 0 (run spawn exitO outO L n t).procs)[j]) ∧
    ((countRunning (pollPhase (exitO t) (outO t) ((t : ℚ) + 1) 0
        (run spawn exitO outO L n t).procs) < L ∧
      (run spawn exitO outO L n t).cursor < (run spawn exitO outO L n t).procs.length) →
      measureW (run spawn exitO outO L n (t + 1)).procs <
        measureW (pollPhase (exitO t) (outO t) ((t : ℚ) + 1) 0
          (run spawn exitO outO L n t).procs)) := by
  obtain ⟨⟨hc, hcnt, hwait, hok⟩, hlen⟩ := run_inv spawn exitO outO L n t
  have hres : run spawn exitO outO L n (t + 1)
      = admit_loop spawn ((t : ℚ) + 1) L
          ⟨pollPhase (exitO t) (outO t) ((t : ℚ) + 1) 0 (run spawn exitO outO L n t).procs,
           (run spawn exitO outO L n t).cursor⟩
          (countRunning (pollPhase (exitO t) (outO t) ((t : ℚ) + 1) 0
            (run spawn exitO outO L n t).procs)) := rfl
  have hplen : (pollPhase (exitO t) (outO t) ((t : ℚ) + 1) 0
      (run spawn exitO outO L n t).procs).length
      = (run spawn exitO outO L n t).procs.length := pollPhase_length _ _ _ _ _
  have hpw : ∀ j (hj : j < (pollPhase (exitO t) (outO t) ((t : ℚ) + 1) 0
      (run spawn exitO outO L n t).procs).length),
      (run spawn exitO outO L n t).cursor ≤ j →
      ((pollPhase (exitO t) (outO t) ((t : ℚ) + 1) 0
        (run spawn exitO outO L n t).procs)[j]).status = State.WAITING := by
    intro j hj hcj
    have hj2 : j < (run spawn exitO outO L n t).procs.length := by omega
    rw [pollPhase_status (exitO t) (outO t) _ _ j hj hj2, hwait j hj2 hcj]
    simp
  have hmaster := admit_loop_spec spawn ((t : ℚ) + 1) L
    ((run spawn exitO outO L n t).procs.length)
    ⟨pollPhase (exitO t) (outO t) ((t : ℚ) + 1) 0 (run spawn exitO outO L n t).procs,
     (run spawn exitO outO L n t).cursor⟩
    (countRunning (pollPhase (exitO t) (outO t) ((t : ℚ) + 1) 0
      (run spawn exitO outO L n t).procs))
    (by dsimp only; omega) (by dsimp only; omega) rfl hpw
  obtain ⟨r1, r2, r3, r4, r5, r6, r7, r8, r9⟩ := hmaster
  dsimp only at r1 r2 r3 r4 r5 r6 r7 r8 r9
  rw [hres]
  exact ⟨by omega, r2, r8,
    sumBy_pollPhase_le stWt stWt_check_le _ _ _ 0 _,
    fun j hj2 hjp hjc => r6 j hj2 hjp hjc, fun hcond => r9 ⟨hcond.1, by omega⟩⟩

/-- The measure never increases along the run. -/
theorem run_measure_mono (t1 t2 : Nat) (h : t1 ≤ t2) :
    measureW (run spawn exitO outO L n t2).procs ≤
      measureW (run spawn exitO outO L n t1).procs := by
  induction h with
  | refl => exact Nat.le_refl _
  | step h2 ih =>
    obtain ⟨_, _, hm1, hm2, _, _⟩ := run_succ_spec spawn exitO outO L n _
    exact Nat.le_trans (Nat.le_trans hm1 hm2) ih

/-- A RUNNING job whose poll still answers `none` is still RUNNING after the
tick. -/
theorem run_step_stay (t j : Nat) (hj : j < (run spawn exitO outO L n t).procs.length)
    (hj1 : j < (run spawn exitO outO L n (t + 1)).procs.length)
    (hrun : ((run spawn exitO outO L n t).procs[j]).status = State.RUNNING)
    (he : exitO t j = none) :
    ((run spawn exitO outO L n (t + 1)).procs[j]).status = State.RUNNING := by
  obtain ⟨⟨hc, hcnt, hwait, hok⟩, hlen⟩ := run_inv spawn exitO outO L n t
  have hjc : j < (run spawn exitO outO L n t).cursor := by
    by_contra hge
    rw [hwait j hj (by omega)] at hrun
    exact absurd hrun (by decide)
  have hjp : j < (pollPhase (exitO t) (outO t) ((t : ℚ) + 1) 0
      (run spawn exitO outO L n t).procs).length := by
    rw [pollPhase_length]; exact hj
  obtain ⟨_, _, _, _, hfix, _⟩ := run_succ_spec spawn exitO outO L n t
  rw [hfix j hj1 hjp hjc, pollPhase_status (exitO t) (outO t) _ _ j hjp hj, hrun, he]
  simp

/-- A RUNNING job whose poll answers an exit code makes the measure strictly
smaller at the next tick. -/
theorem run_step_finish_strict (t j : Nat)
    (hj : j < (run spawn exitO outO L n t).procs.length)
    (hrun : ((run spawn exitO outO L n t).procs[j]).status = State.RUNNING)
    (he : exitO t j ≠ none) :
    measureW (run spawn exitO outO L n (t + 1)).procs <
      measureW (run spawn exitO outO L n t).procs := by
  obtain ⟨_, _, hm1, _, _, _⟩ := run_succ_spec spawn exitO outO L n t
  have hstrict : measureW (pollPhase (exitO t) (outO t) ((t : ℚ) + 1) 0
      (run spawn exitO outO L n t).procs) <
      measureW (run spawn exitO outO L n t).procs := by
    apply sumBy_pollPhase_lt stWt stWt_check_le (exitO t) (outO t) ((t : ℚ) + 1)
      (run spawn exitO outO L n t).procs 0 j hj
    rw [show (0 : Nat) + j = j from by omega]
    cases hcode : exitO t j with
    | none => exact absurd hcode he
    | some c =>
      have : (check_status_and_process_output
          ((run spawn exitO outO L n t).procs[j]) (some c) (outO t j) ((t : ℚ) + 1)).status
          = State.FINISH := by
        rw [check_status_status, hrun]
        simp
      unfold stWt
      rw [this, hrun]
      decide
  exact Nat.lt_of_le_of_lt hm1 hstrict

/-- With no job RUNNING and some job WAITING, the backfill admits a job and
the measure strictly decreases at the next tick. -/
theorem run_waiting_progress (hL : 1 ≤ L) (t j : Nat)
    (hj : j < (run spawn exitO outO L n t).procs.length)
    (hnr : countRunning (run spawn exitO outO L n t).procs = 0)
    (hw : ((run spawn exitO outO L n t).procs[j]).status = State.WAITING) :
    measureW (run spawn exitO outO L n (t + 1)).procs <
      measureW (run spawn exitO outO L n t).procs := by
  obtain ⟨⟨hc, hcnt, hwait, hok⟩, hlen⟩ := run_inv spawn exitO outO L n t
  have hjc : (run spawn exitO outO L n t).cursor ≤ j := by
    by_contra hlt
    have hrw : runWt ((run spawn exitO outO L n t).procs[j]) = 0 :=
      sumBy_eq_zero_all runWt _ hnr j hj
    have hnotrun : ((run spawn exitO outO L n t).procs[j]).status ≠ State.RUNNING := by
      intro hcon
      unfold runWt at hrw
      rw [hcon] at hrw
      simp at hrw
    have := hok j hj (by omega)
    cases hs : spawn j with
    | true =>
      rw [hs] at this
      simp only [if_true] at this
      rcases this with h1 | h1
      · exact hnotrun h1
      · rw [h1] at hw; exact absurd hw (by decide)
    | false =>
      rw [hs] at this
      simp only [Bool.false_eq_true, if_false] at this
      rw [this] at hw; exact absurd hw (by decide)
  have hpzero : countRunning (pollPhase (exitO t) (outO t) ((t : ℚ) + 1) 0
      (run spawn exitO outO L n t).procs) = 0 := by
    have := sumBy_pollPhase_le runWt runWt_check_le (exitO t) (outO t) ((t : ℚ) + 1) 0
      (run spawn exitO outO L n t).procs
    unfold countRunning at hnr ⊢
    omega
  obtain ⟨_, _, _, hm2, _, hstrict⟩ := run_succ_spec spawn exitO outO L n t
  have h := hstrict ⟨by omega, by omega⟩
  omega

/-- A RUNNING job that is guaranteed to report an exit within `k` more ticks
forces a strict measure decrease at some later time. -/
theorem run_running_eventually (k : Nat) :
    ∀ (t j : Nat) (hj : j < (run spawn exitO outO L n t).procs.length),
    ((run spawn exitO outO L n t).procs[j]).status = State.RUNNING →
    exitO (t + k) j ≠ none →
    ∃ u, t < u ∧ measureW (run spawn exitO outO L n u).procs <
      measureW (run spawn exitO outO L n t).procs := by
  induction k with
  | zero =>
    intro t j hj hrun he
    exact ⟨t + 1, by omega,
      run_step_finish_strict spawn exitO outO L n t j hj hrun (by simpa using he)⟩
  | succ k ih =>
    intro t j hj hrun he
    by_cases h0 : exitO t j = none
    · have hlen1 : (run spawn exitO outO L n (t + 1)).procs.length = n :=
        (run_succ_spec spawn exitO outO L n t).1
      have hlen0 : (run spawn exitO outO L n t).procs.length = n :=
        (run_inv spawn exitO outO L n t).2
      have hj1 : j < (run spawn exitO outO L n (t + 1)).procs.length := by omega
      have hstay := run_step_stay spawn exitO outO L n t j hj hj1 hrun h0
      have he1 : exitO ((t + 1) + k) j ≠ none := by
        rw [show (t + 1) + k = t + (k + 1) from by omega]
        exact he
      obtain ⟨u, hu1, hu2⟩ := ih (t + 1) j hj1 hstay he1
      have hmono : measureW (run spawn exitO outO L n (t + 1)).procs ≤
          measureW (run spawn exitO outO L n t).procs := by
        obtain ⟨_, _, hm1, hm2, _, _⟩ := run_succ_spec spawn exitO outO L n t
        omega
      exact ⟨u, by omega, by omega⟩
    · exact ⟨t + 1, by omega,
        run_step_finish_strict spawn exitO outO L n t j hj hrun h0⟩

/-- Progress: while any job is WAITING or RUNNING, the measure eventually
strictly decreases (given the fairness of process exits). -/
theorem run_progress (hL : 1 ≤ L)
    (hfair : ∀ t j, ∃ u, t ≤ u ∧ exitO u j ≠ none)
    (t : Nat) (hpos : 0 < measureW (run spawn exitO outO L n t).procs) :
    ∃ u, t < u ∧ measureW (run spawn exitO outO L n u).procs <
      measureW (run spawn exitO outO L n t).procs := by
  have hrunjob : ∀ j2 (hj2 : j2 < (run spawn exitO outO L n t).procs.length),
      ((run spawn exitO outO L n t).procs[j2]).status = State.RUNNING →
      ∃ u, t < u ∧ measureW (run spawn exitO outO L n u).procs <
        measureW (run spawn exitO outO L n t).procs := by
    intro j2 hj2 hrun
    obtain ⟨u, htu, hu⟩ := hfair t j2
    have := run_running_eventually spawn exitO outO L n (u - t) t j2 hj2 hrun
      (by rw [show t + (u - t) = u from by omega]; exact hu)
    exact this
  obtain ⟨j, hj, hstw⟩ := sumBy_pos_exists stWt _ hpos
  cases hstatus : ((run spawn exitO outO L n t).procs[j]).status with
  | FINISH => unfold stWt at hstw; rw [hstatus] at hstw; simp at hstw
  | ERROR => unfold stWt at hstw; rw [hstatus] at hstw; simp at hstw
  | RUNNING => exact hrunjob j hj hstatus
  | WAITING =>
    by_cases hcr : countRunning (run spawn exitO outO L n t).procs = 0
    · exact ⟨t + 1, by omega,
        run_waiting_progress spawn exitO outO L n hL t j hj hcr hstatus⟩
    · obtain ⟨j2, hj2, hr2⟩ := sumBy_pos_exists runWt _ (Nat.pos_of_ne_zero hcr)
      have hrun2 : ((run spawn exitO outO L n t).procs[j2]).status = State.RUNNING := by
        by_contra hcon
        unfold runWt at hr2
        rw [if_neg hcon] at hr2
        simp at hr2
      exact hrunjob j2 hj2 hrun2

/-- Termination: under fairness the measure reaches zero. -/
theorem run_measure_reaches_zero (hL : 1 ≤ L)
    (hfair : ∀ t j, ∃ u, t ≤ u ∧ exitO u j ≠ none) :
    ∃ T, measureW (run spawn exitO outO L n T).procs = 0 := by
  have haux : ∀ (b t : Nat), measureW (run spawn exitO outO L n t).procs ≤ b →
      ∃ T, measureW (run spawn exitO outO L n T).procs = 0 := by
    intro b
    induction b with
    | zero => intro t h; exact ⟨t, by omega⟩
    | succ b ih =>
      intro t h
      by_cases h0 : measureW (run spawn exitO outO L n t).procs = 0
      · exact ⟨t, h0⟩
      · obtain ⟨u, _, hu⟩ := run_progress spawn exitO outO L n hL hfair t
          (Nat.pos_of_ne_zero h0)
        exact ih u (by omega)
  exact haux (measureW (run spawn exitO outO L n 0).procs) 0 (Nat.le_refl _)

/-- Measure zero means every job is in a terminal state. -/
theorem measureW_zero_terminal (l : List Proc) (h : measureW l = 0) :
    ∀ p ∈ l, p.status = State.FINISH ∨ p.status = State.ERROR := by
  intro p hp
  have hz : stWt p = 0 := by
    have := List.sum_eq_zero_iff.mp h (stWt p) (List.mem_map_of_mem stWt hp)
    exact this
  cases hs : p.status with
  | WAITING => unfold stWt at hz; rw [hs] at hz; simp at hz
  | RUNNING => unfold stWt at hz; rw [hs] at hz; simp at hz
  | FINISH => exact Or.inl rfl
  | ERROR => exact Or.inr rfl

end RunFacts

/-! ### The per-tick aggregate summary -/

/-- What one step of the summary loop adds to each accumulator field. -/
theorem agg_step_spec (a : Agg) (p : Proc) :
    (agg_step a p).waiting = a.waiting + (if p.status = State.WAITING then 1 else 0) ∧
    (agg_step a p).running = a.running + (if p.status = State.RUNNING then 1 else 0) ∧
    (agg_step a p).finished = a.finished + (if p.status = State.FINISH then 1 else 0) ∧
    (agg_step a p).error = a.error + (if p.status = State.ERROR then 1 else 0) ∧
    (agg_step a p).finish_time = a.finish_time + (if p.status = State.FINISH then p.time else 0) ∧
    (agg_step a p).running_perc
      = a.running_perc + (if p.status = State.RUNNING then p.running_perc else 0) ∧
    (agg_step a p).running_eta
      = a.running_eta
        + (if p.status = State.RUNNING ∧ p.running_eta ≠ 0 then p.running_eta else 0) ∧
    (agg_step a p).running_eta_c
      = a.running_eta_c
        + (if p.status = State.RUNNING ∧ p.running_eta ≠ 0 then 1 else 0) := by
  unfold agg_step
  cases hs : p.status <;> by_cases he : p.running_eta = 0 <;> simp [hs, he]

/-- The summary loop accumulates, over the job list: the per-state counts,
the total elapsed time of FINISH jobs, the total percent of RUNNING jobs, and
the total and count of nonzero ETAs of RUNNING jobs. -/
theorem foldl_agg_spec :
    ∀ (l : List Proc) (a : Agg),
      (l.foldl agg_step a).waiting
        = a.waiting + (l.filter (fun p => decide (p.status = State.WAITING))).length ∧
      (l.foldl agg_step a).running
        = a.running + (l.filter (fun p => decide (p.status = State.RUNNING))).length ∧
      (l.foldl agg_step a).finished
        = a.finished + (l.filter (fun p => decide (p.status = State.FINISH))).length ∧
      (l.foldl agg_step a).error
        = a.error + (l.filter (fun p => decide (p.status = State.ERROR))).length ∧
      (l.foldl agg_step a).finish_time
        = a.finish_time
          + ((l.filter (fun p => decide (p.status = State.FINISH))).map Proc.time).sum ∧
      (l.foldl agg_step a).running_perc
        = a.running_perc
          + ((l.filter (fun p => decide (p.status = State.RUNNING))).map Proc.running_perc).sum ∧
      (l.foldl agg_step a).running_eta
        = a.running_eta
          + ((l.filter (fun p =>
              decide (p.status = State.RUNNING ∧ p.running_eta ≠ 0))).map Proc.running_eta).sum ∧
      (l.foldl agg_step a).running_eta_c
        = a.running_eta_c
          + (l.filter (fun p =>
              decide (p.status = State.RUNNING ∧ p.running_eta ≠ 0))).length := by
  intro l
  induction l with
  | nil => intro a; simp
  | cons p ps ih =>
    intro a
    obtain ⟨i1, i2, i3, i4, i5, i6, i7, i8⟩ := ih (agg_step a p)
    obtain ⟨s1, s2, s3, s4, s5, s6, s7, s8⟩ := agg_step_spec a p
    rw [List.foldl_cons]
    refine ⟨?_, ?_, ?_, ?_, ?_, ?_, ?_, ?_⟩
    · rw [i1, s1, List.filter_cons]
      by_cases hP : p.status = State.WAITING
      · simp [hP]; omega
      · simp [hP]
    · rw [i2, s2, List.filter_cons]
      by_cases hP : p.status = State.RUNNING
      · simp [hP]; omega
      · simp [hP]
    · rw [i3, s3, List.filter_cons]
      by_cases hP : p.status = State.FINISH
      · simp [hP]; omega
      · simp [hP]
    · rw [i4, s4, List.filter_cons]
      by_cases hP : p.status = State.ERROR
      · simp [hP]; omega
      · simp [hP]
    · rw [i5, s5, List.filter_cons]
      by_cases hP : p.status = State.FINISH
      · simp [hP]; ring
      · simp [hP]
    · rw [i6, s6, List.filter_cons]
      by_cases hP : p.status = State.RUNNING
      · simp [hP]; ring
      · simp [hP]
    · rw [i7, s7, List.filter_cons]
      by_cases hP : p.status = State.RUNNING ∧ p.running_eta ≠ 0
      · simp [hP]; ring
      · simp [hP]
    · rw [i8, s8, List.filter_cons]
      by_cases hP : p.status = State.RUNNING ∧ p.running_eta ≠ 0
      · simp [hP]; omega
      · simp [hP]

/-! ### The claims -/

/-- C1: at every tick of the monitor loop, and after the initial admission
batch, the number of jobs in the RUNNING state never exceeds the concurrency
limit `L` (`n_process`): for every reachable state of the run,
`count(RUNNING) ≤ L`. -/
theorem claim_running_le_limit (spawn : Nat → Bool) (exitO : Nat → Nat → Option Int)
    (outO : Nat → Nat → List String) (L n t : Nat) :
    countRunning (run spawn exitO outO L n t).procs ≤ L :=
  (run_inv spawn exitO outO L n t).1.2.1

/-- C2: under the precondition that every spawned child process eventually
exits (the poll oracle eventually answers an exit code for every job), the
monitor loop terminates: at some tick every job is in a terminal state
(FINISH or ERROR), no job remaining WAITING or RUNNING — which is exactly
the loop's exit condition `p_remain = False`. -/
theorem claim_loop_terminates (spawn : Nat → Bool) (exitO : Nat → Nat → Option Int)
    (outO : Nat → Nat → List String) (L n : Nat) (hL : 1 ≤ L)
    (hfair : ∀ t j, ∃ u, t ≤ u ∧ exitO u j ≠ none) :
    ∃ T, ∀ p ∈ (run spawn exitO outO L n T).procs,
      p.status = State.FINISH ∨ p.status = State.ERROR := by
  obtain ⟨T, hT⟩ := run_measure_reaches_zero spawn exitO outO L n hL hfair
  exact ⟨T, measureW_zero_terminal _ hT⟩

/-- Witness for C2 at a concrete instance: two jobs, limit 1, every spawn
succeeding and every poll reporting exit code 0. -/
theorem claim_loop_terminates_witness :
    ∃ T, ∀ p ∈ (run (fun _ => true) (fun _ _ => some 0) (fun _ _ => []) 1 2 T).procs,
      p.status = State.FINISH ∨ p.status = State.ERROR :=
  claim_loop_terminates (fun _ => true) (fun _ _ => some 0) (fun _ _ => []) 1 2
    (by omega) (fun t j => ⟨t, Nat.le_refl t, by simp⟩)

/-- C3: a job whose launch fails transitions to ERROR and is never RUNNING
(so the running count is never incremented for it), and admission continues
past it: under the liveness precondition every job whose spawn succeeds still
reaches FINISH, and every job whose spawn fails ends in ERROR — the failure
neither blocks nor aborts the pool's loop. -/
theorem claim_spawn_failure_isolated (spawn : Nat → Bool) (exitO : Nat → Nat → Option Int)
    (outO : Nat → Nat → List String) (L n : Nat) (hL : 1 ≤ L)
    (hfair : ∀ t j, ∃ u, t ≤ u ∧ exitO u j ≠ none) :
    (∀ t j (hj : j < (run spawn exitO outO L n t).procs.length), spawn j = false →
      ((run spawn exitO outO L n t).procs[j]).status ≠ State.RUNNING) ∧
    (∃ T, ∀ j (hj : j < (run spawn exitO outO L n T).procs.length),
      ((run spawn exitO outO L n T).procs[j]).status =
        (if spawn j then State.FINISH else State.ERROR)) := by
  constructor
  · intro t j hj hsf
    obtain ⟨⟨hc, hcnt, hwait, hok⟩, hlen⟩ := run_inv spawn exitO outO L n t
    by_cases hjc : j < (run spawn exitO outO L n t).cursor
    · have hst := hok j hj hjc
      rw [hsf] at hst
      simp only [Bool.false_eq_true, if_false] at hst
      rw [hst]
      decide
    · rw [hwait j hj (by omega)]
      decide
  · obtain ⟨T, hT⟩ := run_measure_reaches_zero spawn exitO outO L n hL hfair
    refine ⟨T, ?_⟩
    intro j hj
    obtain ⟨⟨hc, hcnt, hwait, hok⟩, hlen⟩ := run_inv spawn exitO outO L n T
    have hz := sumBy_eq_zero_all stWt _ hT j hj
    have hjc : j < (run spawn exitO outO L n T).cursor := by
      by_contra hge
      have hw := hwait j hj (by omega)
      unfold stWt at hz
      rw [hw] at hz
      simp at hz
    have hst := hok j hj hjc
    cases hs : spawn j with
    | true =>
      rw [hs] at hst
      simp only [if_true] at hst
      rcases hst with h1 | h1
      · unfold stWt at hz; rw [h1] at hz; simp at hz
      · simp [h1]
    | false =>
      rw [hs] at hst
      simp only [Bool.false_eq_true, if_false] at hst
      simp [hst]

/-- Witness for C3 at a concrete instance: two jobs with job 0's spawn
failing and job 1's succeeding, limit 1. -/
theorem claim_spawn_failure_isolated_witness :
    (∀ t j (hj : j <
        (run (fun j => decide (j = 1)) (fun _ _ => some 0) (fun _ _ => []) 1 2 t).procs.length),
      (fun j => decide (j = 1)) j = false →
      ((run (fun j => decide (j = 1)) (fun _ _ => some 0) (fun _ _ => []) 1 2 t).procs[j]).status
        ≠ State.RUNNING) ∧
    (∃ T, ∀ j (hj : j <
        (run (fun j => decide (j = 1)) (fun _ _ => some 0) (fun _ _ => []) 1 2 T).procs.length),
      ((run (fun j => decide (j = 1)) (fun _ _ => some 0) (fun _ _ => []) 1 2 T).procs[j]).status =
        (if (fun j => decide (j = 1)) j then State.FINISH else State.ERROR)) :=
  claim_spawn_failure_isolated (fun j => decide (j = 1)) (fun _ _ => some 0) (fun _ _ => []) 1 2
    (by omega) (fun t j => ⟨t, Nat.le_refl t, by simp⟩)

/-- C4: the poll step moves a RUNNING job to FINISH as soon as `poll()`
reports any exit code — zero and nonzero alike — and never to ERROR. -/
theorem claim_exit_code_ignored (p : Proc) (code : Int) (outs : List String) (now : ℚ)
    (h : p.status = State.RUNNING) :
    (check_status_and_process_output p (some code) outs now).status = State.FINISH ∧
    (check_status_and_process_output p (some code) outs now).status ≠ State.ERROR := by
  have hfin : (check_status_and_process_output p (some code) outs now).status = State.FINISH := by
    rw [check_status_status, h]
    simp
  exact ⟨hfin, by rw [hfin]; decide⟩

/-- Witness for C4: a RUNNING job polled with exit code 1 (failure) and one
polled with exit code 0 (success) both end FINISH. -/
theorem claim_exit_code_ignored_witness :
    (check_status_and_process_output ⟨State.RUNNING, 0, 0, 0⟩ (some 1) [] 5).status
      = State.FINISH ∧
    (check_status_and_process_output ⟨State.RUNNING, 0, 0, 0⟩ (some 0) [] 5).status
      = State.FINISH :=
  ⟨(claim_exit_code_ignored ⟨State.RUNNING, 0, 0, 0⟩ 1 [] 5 rfl).1,
   (claim_exit_code_ignored ⟨State.RUNNING, 0, 0, 0⟩ 0 [] 5 rfl).1⟩

/-- C9: when the total number of jobs `tp` (`t_process`) is smaller than the
configured concurrency limit `L` (`n_process`), setup lowers the effective
limit to `tp`, so the pool enforces `min L tp`: the adjusted limit equals
`min L tp` and the number of RUNNING jobs never exceeds it at any reachable
state of a run over `tp` jobs. -/
theorem claim_effective_limit_min (L tp : Nat) (spawn : Nat → Bool)
    (exitO : Nat → Nat → Option Int) (outO : Nat → Nat → List String) (t : Nat) :
    setup_n_process L tp = min L tp ∧
    countRunning (run spawn exitO outO (setup_n_process L tp) tp t).procs ≤ min L tp := by
  have h1 : setup_n_process L tp = min L tp := by
    unfold setup_n_process
    split <;> omega
  refine ⟨h1, ?_⟩
  have h2 := (run_inv spawn exitO outO (setup_n_process L tp) tp t).1.2.1
  omega

/-- C5: on every output line of the shape
`Trace ETA <number> [<unit>] % ... <percent>` with unit `s`, `min` or `h`,
the parser stores the number normalized to seconds (s ×1, min ×60, h ×3600)
as the ETA and the final integer token of the line as the percent. -/
theorem claim_trace_eta_parsed (p : Proc) (t u mid pc ip fp : List Char)
    (ht : NumTok t ip fp)
    (hu : u = ("s").data ∨ u = ("min").data ∨ u = ("h").data)
    (hmid : '\n' ∉ mid)
    (hpc : pc ≠ []) (hpcd : ∀ c ∈ pc, isDigitChar c = true) :
    process_output p (String.mk (traceLine t u mid pc)) =
      { p with
        running_eta :=
          (if u = ("s").data then 1 else if u = ("min").data then 60 else 3600)
            * ratOfNumStr t,
        running_perc := (natOfDigits pc : ℤ) } := by
  have hu1 : u ≠ [] := by rcases hu with rfl | rfl | rfl <;> decide
  have hu2 : ∀ c ∈ u, isWordChar c = true := by
    rcases hu with rfl | rfl | rfl <;> decide
  rw [process_output_traceLine p t u mid pc ip fp ht hu1 hu2 hmid hpc hpcd]
  rcases hu with rfl | rfl | rfl
  · simp +decide
  · simp +decide
  · have h36 : (60 : ℚ) * 60 * ratOfNumStr t = 3600 * ratOfNumStr t := by ring
    rw [h36]
    simp +decide

/-- Witness for C5: the two example lines of the specification, built from
their components and shown equal to the example strings; the first yields
ETA 432 s and percent 42, the second ETA 5601.996 s and percent 0. -/
theorem claim_trace_eta_parsed_witness :
    String.mk (traceLine ("7.2").data ("min").data (" 2 12 22 32").data ("42").data)
      = ("Trace ETA 7.2 [min] % 2 12 22 32 42") ∧
    process_output initProc
        (String.mk (traceLine ("7.2").data ("min").data (" 2 12 22 32").data ("42").data))
      = ⟨State.WAITING, 0, 432, 42⟩ ∧
    String.mk (traceLine ("1.55611").data ("h").data [] ("0").data)
      = ("Trace ETA 1.55611 [h] % 0") ∧
    process_output initProc
        (String.mk (traceLine ("1.55611").data ("h").data [] ("0").data))
      = ⟨State.WAITING, 0, (5601.996 : ℚ), 0⟩ := by
  refine ⟨rfl, ?_, rfl, ?_⟩
  · rw [claim_trace_eta_parsed initProc ("7.2").data ("min").data (" 2 12 22 32").data
      ("42").data ("7").data ("2").data
      ⟨by decide, by decide, by decide, Or.inr (by decide)⟩
      (Or.inr (Or.inl rfl)) (by decide) (by decide) (by decide)]
    simp +decide [initProc, ratOfNumStr, natOfDigits, isDigitChar, List.takeWhile,
      List.dropWhile]
    norm_num
  · rw [claim_trace_eta_parsed initProc ("1.55611").data ("h").data [] ("0").data
      ("1").data ("55611").data
      ⟨by decide, by decide, by decide, Or.inr (by decide)⟩
      (Or.inr (Or.inr rfl)) (by decide) (by decide) (by decide)]
    simp +decide [initProc, ratOfNumStr, natOfDigits, isDigitChar, List.takeWhile,
      List.dropWhile]
    norm_num

/-- C6: a line consisting solely of an integer followed by a trailing space
updates only the stored percent and leaves the stored ETA at its prior
value; and the parser holds no job state across lines beyond these two
stored values (state and timestamp are never touched by it). -/
theorem claim_percent_only_line (p : Proc) (pc : List Char) (hpc : pc ≠ [])
    (hpcd : ∀ c ∈ pc, isDigitChar c = true) :
    process_output p (String.mk (pc ++ [' ']))
      = { p with running_perc := (natOfDigits pc : ℤ) } ∧
    (∀ (q : Proc) (out : String),
      (process_output q out).status = q.status ∧ (process_output q out).time = q.time) := by
  refine ⟨?_, fun q out => process_output_keeps_status_time q out⟩
  obtain ⟨c, pcs, rfl⟩ : ∃ c pcs, pc = c :: pcs := by
    cases pc with
    | nil => exact absurd rfl hpc
    | cons c pcs => exact ⟨c, pcs, rfl⟩
  unfold process_output
  rw [show (String.mk ((c :: pcs) ++ [' '])).data = c :: (pcs ++ [' ']) from rfl,
    matchTraceETA_cons_digit c (pcs ++ [' ']) (hpcd c (by simp)),
    show (c :: (pcs ++ [' '])) = (c :: pcs) ++ [' '] from rfl,
    matchPercent_spec _ hpc hpcd]

/-- Witness for C6: the line `55 ` sets the percent to 55 and leaves the
prior ETA (99) unchanged. -/
theorem claim_percent_only_line_witness :
    String.mk (("55").data ++ [' ']) = ("55 ") ∧
    process_output ⟨State.WAITING, 3, 99, 7⟩ (String.mk (("55").data ++ [' ']))
      = ⟨State.WAITING, 3, 99, 55⟩ := by
  refine ⟨rfl, ?_⟩
  rw [(claim_percent_only_line ⟨State.WAITING, 3, 99, 7⟩ ("55").data (by decide)
    (by decide)).1]
  simp +decide [natOfDigits]

/-- C10: on a `Trace ETA` line whose unit token is a word other than `s`,
`min` or `h`, the parser still updates the stored percent to the final
integer token but stores 0 (the unknown value) as the ETA, instead of
rejecting the line. -/
theorem claim_unknown_unit_eta_zero (p : Proc) (t u mid pc ip fp : List Char)
    (ht : NumTok t ip fp)
    (hu : u ≠ []) (huw : ∀ c ∈ u, isWordChar c = true)
    (hus : u ≠ ("s").data) (hum : u ≠ ("min").data) (huh : u ≠ ("h").data)
    (hmid : '\n' ∉ mid)
    (hpc : pc ≠ []) (hpcd : ∀ c ∈ pc, isDigitChar c = true) :
    process_output p (String.mk (traceLine t u mid pc)) =
      { p with running_eta := 0, running_perc := (natOfDigits pc : ℤ) } := by
  rw [process_output_traceLine p t u mid pc ip fp ht hu huw hmid hpc hpcd]
  simp [hus, hum, huh]

/-- Witness for C10: the line `Trace ETA 5 [days] % 10` stores ETA 0 and
percent 10. -/
theorem claim_unknown_unit_eta_zero_witness :
    String.mk (traceLine ("5").data ("days").data [] ("10").data)
      = ("Trace ETA 5 [days] % 10") ∧
    process_output initProc (String.mk (traceLine ("5").data ("days").data [] ("10").data))
      = ⟨State.WAITING, 0, 0, 10⟩ := by
  refine ⟨rfl, ?_⟩
  rw [claim_unknown_unit_eta_zero initProc ("5").data ("days").data [] ("10").data
    ("5").data []
    ⟨by decide, by decide, by decide, Or.inl rfl⟩
    (by decide) (by decide) (by decide) (by decide) (by decide) (by decide)
    (by decide) (by decide)]
  simp +decide [initProc, natOfDigits]

/-- C7: the per-tick aggregate status reports the waiting/running/finish/
error counts; the average percent over currently-RUNNING jobs (0 when none
is running); the average ETA over currently-RUNNING jobs with nonzero ETA
(0 when none reports an ETA); and the average elapsed time over FINISH jobs
(0 when none has finished). -/
theorem claim_summary_aggregates (procs : List Proc) :
    (print_output_summary procs).waiting
      = (procs.filter (fun p => decide (p.status = State.WAITING))).length ∧
    (print_output_summary procs).running
      = (procs.filter (fun p => decide (p.status = State.RUNNING))).length ∧
    (print_output_summary procs).finished
      = (procs.filter (fun p => decide (p.status = State.FINISH))).length ∧
    (print_output_summary procs).error
      = (procs.filter (fun p => decide (p.status = State.ERROR))).length ∧
    (print_output_summary procs).running_perc_avg
      = (if (procs.filter (fun p => decide (p.status = State.RUNNING))).length = 0 then 0
         else (((procs.filter (fun p => decide (p.status = State.RUNNING))).map
            Proc.running_perc).sum : ℚ)
          / ((procs.filter (fun p => decide (p.status = State.RUNNING))).length : ℚ)) ∧
    (print_output_summary procs).running_eta_avg
      = (if (procs.filter (fun p =>
            decide (p.status = State.RUNNING ∧ p.running_eta ≠ 0))).length = 0 then 0
         else ((procs.filter (fun p =>
            decide (p.status = State.RUNNING ∧ p.running_eta ≠ 0))).map
              Proc.running_eta).sum
          / ((procs.filter (fun p =>
              decide (p.status = State.RUNNING ∧ p.running_eta ≠ 0))).length : ℚ)) ∧
    (print_output_summary procs).finished_avg
      = (if (procs.filter (fun p => decide (p.status = State.FINISH))).length = 0 then 0
         else ((procs.filter (fun p => decide (p.status = State.FINISH))).map Proc.time).sum
          / ((procs.filter (fun p => decide (p.status = State.FINISH))).length : ℚ)) := by
  obtain ⟨f1, f2, f3, f4, f5, f6, f7, f8⟩ :=
    foldl_agg_spec procs ⟨0, 0, 0, 0, 0, 0, 0, 0⟩
  dsimp only at f1 f2 f3 f4 f5 f6 f7 f8
  unfold print_output_summary
  dsimp only
  rw [f1, f2, f3, f4, f5, f6, f7, f8]
  simp only [Nat.zero_add, zero_add]
  refine ⟨trivial, trivial, trivial, trivial, ?_, ?_, ?_⟩
  · by_cases h : (procs.filter (fun p => decide (p.status = State.RUNNING))).length = 0
    · rw [if_neg (not_not_intro h), if_pos h]
    · rw [if_pos h, if_neg h]
  · by_cases h : (procs.filter (fun p =>
        decide (p.status = State.RUNNING ∧ p.running_eta ≠ 0))).length = 0
    · rw [if_neg (not_not_intro h), if_pos h]
    · rw [if_pos h, if_neg h]
  · by_cases h : (procs.filter (fun p => decide (p.status = State.FINISH))).length = 0
    · rw [if_neg (not_not_intro h), if_pos h]
    · rw [if_pos h, if_neg h]

/-- C8 (amended to non-CSV runs): at cleanup, when no CSV file was supplied,
every FINISH job whose expected artifact is missing is reported as an
integrity error and excluded from concatenation and copying, while every
FINISH job whose artifact exists is still concatenated (and copied when a
final directory is requested) — the missing artifact does not abort the
processing of the other jobs. -/
theorem claim_cleanup_missing_non_csv (procs : List CJob) (o fd : Option String)
    (rm : Bool) (isfile isdir : String → Bool) (ho : o.isSome = true)
    (hnd : (procs.map artifactPath).Nodup) :
    ∀ p ∈ procs, p.status = State.FINISH →
      (isfile (artifactPath p) = false →
        artifactPath p ∈ (check_and_cleanup procs o fd rm false isfile isdir).errors ∧
        artifactPath p ∉ (check_and_cleanup procs o fd rm false isfile isdir).concatenated ∧
        artifactPath p ∉ (check_and_cleanup procs o fd rm false isfile isdir).copied) ∧
      (isfile (artifactPath p) = true →
        artifactPath p ∈ (check_and_cleanup procs o fd rm false isfile isdir).concatenated ∧
        (fd.isSome = true →
          artifactPath p ∈ (check_and_cleanup procs o fd rm false isfile isdir).copied)) := by
  obtain ⟨ov, rfl⟩ := Option.isSome_iff_exists.mp ho
  have hres : check_and_cleanup procs (some ov) fd rm false isfile isdir =
      { errors := (procs.filter
          (fun p => decide (p.status = State.FINISH) && !isfile (artifactPath p))).map
            artifactPath
        concatenated := (procs.filter
          (fun p => decide (p.status = State.FINISH) && isfile (artifactPath p))).map
            artifactPath
        copied := if fd.isSome then (procs.filter
          (fun p => decide (p.status = State.FINISH) && isfile (artifactPath p))).map
            artifactPath else []
        removedDirs := if rm then
          ((procs.filter (fun p => decide (p.status = State.FINISH) && isdir p.dir_)).map
            (fun p => p.dir_)) else [] } := rfl
  rw [hres]
  intro p hp hfin
  have hnotconc : isfile (artifactPath p) = false →
      artifactPath p ∉ (procs.filter
        (fun p => decide (p.status = State.FINISH) && isfile (artifactPath p))).map
          artifactPath := by
    intro hmiss hmem
    obtain ⟨q, hqf, hqe⟩ := List.mem_map.mp hmem
    obtain ⟨hq1, hq2⟩ := List.mem_filter.mp hqf
    have hqp : q = p := List.inj_on_of_nodup_map hnd hq1 hp hqe
    rw [hqp] at hq2
    rw [hmiss] at hq2
    simp at hq2
  constructor
  · intro hmiss
    refine ⟨?_, hnotconc hmiss, ?_⟩
    · exact List.mem_map_of_mem artifactPath
        (List.mem_filter.mpr ⟨hp, by rw [hfin, hmiss]; rfl⟩)
    · cases hfd : fd.isSome with
      | true =>
        dsimp only
        rw [if_pos rfl]
        exact hnotconc hmiss
      | false =>
        dsimp only
        rw [if_neg Bool.false_ne_true]
        simp
  · intro hfile
    have hc : artifactPath p ∈ (procs.filter
        (fun p => decide (p.status = State.FINISH) && isfile (artifactPath p))).map
          artifactPath :=
      List.mem_map_of_mem artifactPath
        (List.mem_filter.mpr ⟨hp, by rw [hfin, hfile]; rfl⟩)
    refine ⟨hc, ?_⟩
    intro hfd
    dsimp only
    rw [if_pos hfd]
    exact hc

/-- Counterexample to C8 as stated: in a CSV-driven run (`cls.csv` set), one
FINISH job with a missing artifact and one FINISH job with an existing
artifact; the missing artifact is reported, but the concatenation is skipped
entirely (`if not (cls.csv and errors)`, multimxrun.py:529), so the other
job's existing artifact is NOT concatenated — contradicting "the remaining
jobs' artifacts are still concatenated". -/
theorem claim_cleanup_csv_counterexample :
    (check_and_cleanup
        [⟨State.FINISH, ("a.dat"), ("da")⟩, ⟨State.FINISH, ("b.dat"), ("db")⟩]
        (some ("out")) none false true
        (fun s => decide (s = ("db/b.dat"))) (fun _ => true)).errors
      = [("da/a.dat")] ∧
    (check_and_cleanup
        [⟨State.FINISH, ("a.dat"), ("da")⟩, ⟨State.FINISH, ("b.dat"), ("db")⟩]
        (some ("out")) none false true
        (fun s => decide (s = ("db/b.dat"))) (fun _ => true)).concatenated
      = [] := by
  constructor <;> rfl

/-- Witness for the amended C8 at a concrete non-CSV instance: job `a`'s
missing artifact is reported and excluded, while job `b`'s existing artifact
is still concatenated. -/
theorem claim_cleanup_missing_non_csv_witness :
    ("da/a.dat") ∈ (check_and_cleanup
        [⟨State.FINISH, ("a.dat"), ("da")⟩, ⟨State.FINISH, ("b.dat"), ("db")⟩]
        (some ("out")) none false false
        (fun s => decide (s = ("db/b.dat"))) (fun _ => true)).errors ∧
    ("da/a.dat") ∉ (check_and_cleanup
        [⟨State.FINISH, ("a.dat"), ("da")⟩, ⟨State.FINISH, ("b.dat"), ("db")⟩]
        (some ("out")) none false false
        (fun s => decide (s = ("db/b.dat"))) (fun _ => true)).concatenated ∧
    ("db/b.dat") ∈ (check_and_cleanup
        [⟨State.FINISH, ("a.dat"), ("da")⟩, ⟨State.FINISH, ("b.dat"), ("db")⟩]
        (some ("out")) none false false
        (fun s => decide (s = ("db/b.dat"))) (fun _ => true)).concatenated := by
  have h := claim_cleanup_missing_non_csv
    [⟨State.FINISH, ("a.dat"), ("da")⟩, ⟨State.FINISH, ("b.dat"), ("db")⟩]
    (some ("out")) none false
    (fun s => decide (s = ("db/b.dat"))) (fun _ => true) rfl (by decide)
  have hA := h ⟨State.FINISH, ("a.dat"), ("da")⟩ (by simp) rfl
  have hB := h ⟨State.FINISH, ("b.dat"), ("db")⟩ (by simp) rfl
  obtain ⟨e1, e2, e3⟩ := hA.1 (by decide)
  obtain ⟨c1, c2⟩ := hB.2 (by decide)
  exact ⟨e1, e2, c1⟩

end Multimxrun
